import Mathlib

/-!
# Verification of the MAXScript Batch Tool orchestration engine

A shallow embedding of the batch-processing core of
`MAXScript-Batch-Tool.py`: the method `processFiles` (the nested
targets × scripts loop with per-step error isolation, cooperative abort
checkpoints and progress reporting), its caller `processAll`, and the
arithmetic helpers `updateProgress` and `secondsToHMS`.

The host application (3ds Max) is abstracted as an oracle `Host` saying,
for each path, whether it exists on disk, and whether each
`loadMaxFile` / `fileIn` / `saveMaxFile` call succeeds; `fileIn` may
additionally set the host-side global flag `g_abortRequested`.  The UI
abort button (`stopButtonPressed`) is modelled as a Boolean function of
the number of completed steps, polled at exactly the checkpoints where
the Python code reads it.  The trace of host operations actually invoked
is recorded as a list of `HostOp`, and the successive values passed to
`updateProgress` as a list of naturals.
-/

namespace BatchTool

/-- A host operation invoked by the engine: `loadMaxFile target`,
`fileIn script` (while `target` is the loaded file), `saveMaxFile target`. -/
inductive HostOp where
  | load (target : String)
  | run (script : String) (target : String)
  | save (target : String)
deriving DecidableEq, Repr

/-- Oracle describing the host environment's behaviour:
`pathExists` models `os.path.exists`; `loadOk`/`runOk`/`saveOk` say whether
`runtime.loadMaxFile` / `runtime.fileIn` / `runtime.saveMaxFile` return
normally (rather than raising); `abortSignal s t` says whether running
script `s` on target `t` sets the host-side `runtime.g_abortRequested`
flag. -/
structure Host where
  pathExists : String → Bool
  loadOk : String → Bool
  runOk : String → String → Bool
  saveOk : String → Bool
  abortSignal : String → String → Bool

/-- The engine-internal mutable state of one run: `current_step`,
`self.errors_occurred`, and the latched host-side flag
`runtime.g_abortRequested`. -/
structure RunState where
  currentStep : Nat
  errors : Bool
  gAbort : Bool
deriving DecidableEq, Repr

/-- How the inner (scripts) loop of `processFiles` was left. -/
inductive InnerExit where
  /-- the `for max_script_file in max_script_files` loop ran to its end -/
  | normal
  /-- `break` at the top of the loop body because `stopButtonPressed` -/
  | stopBreak
  /-- `break` after `fileIn` because `runtime.g_abortRequested` -/
  | gAbortBreak
  /-- `return` from the post-step `stopButtonPressed` checkpoint -/
  | abortReturn
deriving DecidableEq, Repr

/-- Result of the inner (scripts) loop: final state, host operations
invoked, successive `current_step` values reported to `updateProgress`,
and how the loop exited. -/
structure InnerRes where
  st : RunState
  ops : List HostOp
  prog : List Nat
  exit : InnerExit
deriving DecidableEq, Repr

/-- How the outer (targets) loop of `processFiles` was left: fell off the
end of the loop, or returned early from an abort checkpoint. -/
inductive OuterExit where
  | finished
  | abortReturn
deriving DecidableEq, Repr

/-- Result of the outer (targets) loop. -/
structure OuterRes where
  st : RunState
  ops : List HostOp
  prog : List Nat
  exit : OuterExit
deriving DecidableEq, Repr

/-- The inner loop of `processFiles` (lines 541–574 of the source), for a
fixed loaded target `t`:

```
for max_script_file in max_script_files:
    if self.stopButtonPressed: break
    if not os.path.exists(max_script_file): errors_occurred = True; continue
    try:
        runtime.fileIn(max_script_file)
        if runtime.g_abortRequested: break
    except: errors_occurred = True; continue
    current_step += 1
    self.updateProgress(current_step, ...)
    if self.stopButtonPressed: return   # abort
```

`stop n` is the value of `self.stopButtonPressed` as observed while
`current_step = n`.  A `fileIn` call is recorded in the trace whether or
not it raises, and it latches `gAbort` with the host's abort signal in
either case; the `if runtime.g_abortRequested` check only executes on the
non-raising path, exactly as in the `try` block. -/
def runScripts (h : Host) (stop : Nat → Bool) (t : String) :
    List String → RunState → InnerRes
  | [], st => ⟨st, [], [], .normal⟩
  | s :: rest, st =>
    if stop st.currentStep then
      ⟨st, [], [], .stopBreak⟩
    else if h.pathExists s = false then
      runScripts h stop t rest { st with errors := true }
    else
      let g := st.gAbort || h.abortSignal s t
      if h.runOk s t then
        if g then
          ⟨{ st with gAbort := g }, [.run s t], [], .gAbortBreak⟩
        else
          let st1 : RunState := { st with currentStep := st.currentStep + 1, gAbort := g }
          if stop st1.currentStep then
            ⟨st1, [.run s t], [st1.currentStep], .abortReturn⟩
          else
            let r := runScripts h stop t rest st1
            ⟨r.st, .run s t :: r.ops, st1.currentStep :: r.prog, r.exit⟩
      else
        let r := runScripts h stop t rest { st with errors := true, gAbort := g }
        ⟨r.st, .run s t :: r.ops, r.prog, r.exit⟩

/-- The outer loop of `processFiles` (lines 516–583 of the source):

```
for max_file in max_files:
    if self.stopButtonPressed: return        # abort
    if not os.path.exists(max_file): errors_occurred = True; continue
    try: runtime.loadMaxFile(max_file)
    except: errors_occurred = True; continue
    <inner scripts loop>
    if save_max_file and not self.stopButtonPressed:
        try: runtime.saveMaxFile(max_file)
        except: errors_occurred = True
```

The post-step abort checkpoint inside the inner loop is a `return` from
the whole method, so an inner `abortReturn` propagates directly; the
other three inner exits fall through to the save attempt and then to the
next target. -/
def runTargets (h : Host) (stop : Nat → Bool) (ss : List String) (saveFlag : Bool) :
    List String → RunState → OuterRes
  | [], st => ⟨st, [], [], .finished⟩
  | t :: rest, st =>
    if stop st.currentStep then
      ⟨st, [], [], .abortReturn⟩
    else if h.pathExists t = false then
      runTargets h stop ss saveFlag rest { st with errors := true }
    else if h.loadOk t = false then
      let r := runTargets h stop ss saveFlag rest { st with errors := true }
      ⟨r.st, .load t :: r.ops, r.prog, r.exit⟩
    else
      let ir := runScripts h stop t ss st
      if ir.exit = .abortReturn then
        ⟨ir.st, .load t :: ir.ops, ir.prog, .abortReturn⟩
      else
        let doSave := saveFlag && !(stop ir.st.currentStep)
        let st2 : RunState :=
          if doSave && !(h.saveOk t) then { ir.st with errors := true } else ir.st
        let saveOps : List HostOp := if doSave then [.save t] else []
        let r := runTargets h stop ss saveFlag rest st2
        ⟨r.st, .load t :: (ir.ops ++ saveOps ++ r.ops), ir.prog ++ r.prog, r.exit⟩

/-- Terminal outcome of a run, as reported in the final log message /
message boxes of the source. -/
inductive RunResult where
  /-- "Processing finished successfully." -/
  | completed
  /-- "Processing completed with errors." -/
  | completedWithErrors
  /-- "Processing 3ds Max files aborted!" -/
  | aborted
  /-- `processAll`: "MAXScript or 3ds Max file lists are empty!" -/
  | emptyInput
  /-- `processFiles` early return: "No files to process." -/
  | nothingToDo
deriving DecidableEq, Repr

/-- Observable outcome of a whole run: final `current_step`, the
`total_steps` computed once at the start, the final `errors_occurred`
flag, the trace of host operations, the successive `current_step` values
reported to `updateProgress`, and the terminal result. -/
structure RunOutput where
  finalStep : Nat
  total : Nat
  errors : Bool
  ops : List HostOp
  prog : List Nat
  result : RunResult
deriving DecidableEq, Repr

/-- `processFiles(max_script_files, max_files, save_max_file)`
(lines 502–592 of the source).  `total_steps` is computed once; if it is
`0` the method logs "No files to process." and returns at once.
Otherwise the nested loops run from `current_step = 0` with both error
flag and host abort flag freshly reset (as done by `processAll` just
before the call), and the final log message distinguishes a run that
returned from an abort checkpoint from one that fell off the loop with or
without recorded errors. -/
def processFiles (h : Host) (stop : Nat → Bool) (ss ts : List String)
    (saveFlag : Bool) : RunOutput :=
  let total := ts.length * ss.length
  if total = 0 then
    ⟨0, total, false, [], [], .nothingToDo⟩
  else
    let r := runTargets h stop ss saveFlag ts ⟨0, false, false⟩
    if r.exit = .abortReturn then
      ⟨r.st.currentStep, total, r.st.errors, r.ops, r.prog, .aborted⟩
    else
      ⟨r.st.currentStep, total, r.st.errors, r.ops, r.prog,
        if r.st.errors then .completedWithErrors else .completed⟩

/-- `processAll` (lines 476–500 of the source): if either list widget is
empty it shows the warning "MAXScript or 3ds Max file lists are empty!"
and returns without touching the engine; otherwise it snapshots the two
path lists and calls `processFiles` on them directly — the comment in the
source is explicit: "Start processing without pre-validating file
paths". -/
def processAll (h : Host) (stop : Nat → Bool) (ss ts : List String)
    (saveFlag : Bool) : RunOutput :=
  if ss.length = 0 ∨ ts.length = 0 then
    ⟨0, 0, false, [], [], .emptyInput⟩
  else
    processFiles h stop ss ts saveFlag

/-- The two numbers shown by `updateProgress`: the percentage put on the
progress bar and the estimated remaining time (in seconds) put in the
group-box title. -/
structure ProgressInfo where
  percent : ℚ
  estimatedRemaining : ℚ
deriving DecidableEq, Repr

/-- The arithmetic of `updateProgress(current_step, total_steps,
start_time)` (lines 594–611 of the source), with `time.time()` passed in
as `now`:

```
progress_value = current_step / total_steps * 100
elapsed_time = now - start_time
time_per_step = elapsed_time / current_step if current_step > 0 else 0
estimated_remaining_time = (total_steps - current_step) * time_per_step
```

Real arithmetic is modelled over `ℚ`. -/
def updateProgressCalc (currentStep totalSteps : Nat) (startTime now : ℚ) :
    ProgressInfo :=
  let progressValue : ℚ := (currentStep : ℚ) / (totalSteps : ℚ) * 100
  let elapsed : ℚ := now - startTime
  let timePerStep : ℚ := if 0 < currentStep then elapsed / (currentStep : ℚ) else 0
  let remainingSteps : ℚ := (totalSteps : ℚ) - (currentStep : ℚ)
  ⟨progressValue, remainingSteps * timePerStep⟩

/-- Python's `int(x)` on a float: truncation towards zero. -/
def pyInt (q : ℚ) : ℤ := if 0 ≤ q then ⌊q⌋ else ⌈q⌉

/-- `secondsToHMS(seconds)` (lines 613–626 of the source):

```
hours = int(seconds) // 3600
minutes = (int(seconds) % 3600) // 60
seconds = int(seconds) % 60
```

Python `//` and `%` are floor division and floor modulus, i.e. `Int.fdiv`
and `Int.fmod`. -/
def secondsToHMS (seconds : ℚ) : ℤ × ℤ × ℤ :=
  let n := pyInt seconds
  (Int.fdiv n 3600, Int.fdiv (Int.fmod n 3600) 60, Int.fmod n 60)

/-- Is a host operation a script run (`fileIn`)? -/
def isRunOp : HostOp → Bool
  | .run _ _ => true
  | _ => false

/-- Number of script-run operations in a trace. -/
def countRuns (l : List HostOp) : Nat := l.countP fun op => isRunOp op

/-- Prefix an inner-loop result with one host operation and some progress
reports (combinator used only to state unfolding lemmas). -/
def InnerRes.push (op : HostOp) (ps : List Nat) (r : InnerRes) : InnerRes :=
  ⟨r.st, op :: r.ops, ps ++ r.prog, r.exit⟩

/-- Prefix an outer-loop result with host operations and progress reports
(combinator used only to state unfolding lemmas). -/
def OuterRes.push (ops : List HostOp) (ps : List Nat) (r : OuterRes) : OuterRes :=
  ⟨r.st, ops ++ r.ops, ps ++ r.prog, r.exit⟩

/-! ### Concrete hosts used to instantiate the theorems -/

/-- A host on which every path exists and every operation succeeds. -/
def allOkHost : Host :=
  ⟨fun _ => true, fun _ => true, fun _ _ => true, fun _ => true, fun _ _ => false⟩

/-- Like `allOkHost`, but `fileIn "A"` raises while `"T1"` is loaded. -/
def runFailHost : Host :=
  { allOkHost with runOk := fun s t => !(s == "A" && t == "T1") }

/-- Like `allOkHost`, but only the path `"T"` exists on disk. -/
def onlyTHost : Host :=
  { allOkHost with pathExists := fun p => p == "T" }

/-- Like `allOkHost`, but running script `"A"` on `"T1"` sets the
host-side `g_abortRequested` flag. -/
def sigAbortHost : Host :=
  { allOkHost with abortSignal := fun s t => s == "A" && t == "T1" }

/-- Like `allOkHost`, but the path `"T1"` does not exist on disk. -/
def noT1Host : Host :=
  { allOkHost with pathExists := fun p => !(p == "T1") }

/-- Like `allOkHost`, but `loadMaxFile "T1"` raises. -/
def loadFailHost : Host :=
  { allOkHost with loadOk := fun t => !(t == "T1") }

/-! ### Unfolding lemmas for the two loops -/

lemma runScripts_nil (h : Host) (stop : Nat → Bool) (t : String) (st : RunState) :
    runScripts h stop t [] st = ⟨st, [], [], .normal⟩ := rfl

lemma runScripts_cons_stop (h : Host) (stop : Nat → Bool) (t s : String)
    (rest : List String) (st : RunState) (h1 : stop st.currentStep = true) :
    runScripts h stop t (s :: rest) st = ⟨st, [], [], .stopBreak⟩ := by
  simp [runScripts, h1]

lemma runScripts_cons_missing (h : Host) (stop : Nat → Bool) (t s : String)
    (rest : List String) (st : RunState)
    (h1 : stop st.currentStep = false) (h2 : h.pathExists s = false) :
    runScripts h stop t (s :: rest) st =
      runScripts h stop t rest { st with errors := true } := by
  simp [runScripts, h1, h2]

lemma runScripts_cons_runfail (h : Host) (stop : Nat → Bool) (t s : String)
    (rest : List String) (st : RunState)
    (h1 : stop st.currentStep = false) (h2 : h.pathExists s = true)
    (h3 : h.runOk s t = false) :
    runScripts h stop t (s :: rest) st =
      InnerRes.push (.run s t) []
        (runScripts h stop t rest
          { st with errors := true, gAbort := st.gAbort || h.abortSignal s t }) := by
  simp [runScripts, h1, h2, h3, InnerRes.push]

lemma runScripts_cons_gbreak (h : Host) (stop : Nat → Bool) (t s : String)
    (rest : List String) (st : RunState)
    (h1 : stop st.currentStep = false) (h2 : h.pathExists s = true)
    (h3 : h.runOk s t = true) (h4 : (st.gAbort || h.abortSignal s t) = true) :
    runScripts h stop t (s :: rest) st =
      ⟨{ st with gAbort := true }, [.run s t], [], .gAbortBreak⟩ := by
  simp [runScripts, h1, h2, h3, h4]

lemma runScripts_cons_step_abort (h : Host) (stop : Nat → Bool) (t s : String)
    (rest : List String) (st : RunState)
    (h1 : stop st.currentStep = false) (h2 : h.pathExists s = true)
    (h3 : h.runOk s t = true) (h4 : (st.gAbort || h.abortSignal s t) = false)
    (h5 : stop (st.currentStep + 1) = true) :
    runScripts h stop t (s :: rest) st =
      ⟨⟨st.currentStep + 1, st.errors, false⟩, [.run s t],
        [st.currentStep + 1], .abortReturn⟩ := by
  simp [runScripts, h1, h2, h3, h4, h5]

lemma runScripts_cons_step (h : Host) (stop : Nat → Bool) (t s : String)
    (rest : List String) (st : RunState)
    (h1 : stop st.currentStep = false) (h2 : h.pathExists s = true)
    (h3 : h.runOk s t = true) (h4 : (st.gAbort || h.abortSignal s t) = false)
    (h5 : stop (st.currentStep + 1) = false) :
    runScripts h stop t (s :: rest) st =
      InnerRes.push (.run s t) [st.currentStep + 1]
        (runScripts h stop t rest ⟨st.currentStep + 1, st.errors, false⟩) := by
  simp [runScripts, h1, h2, h3, h4, h5, InnerRes.push]

lemma runTargets_nil (h : Host) (stop : Nat → Bool) (ss : List String)
    (saveFlag : Bool) (st : RunState) :
    runTargets h stop ss saveFlag [] st = ⟨st, [], [], .finished⟩ := rfl

lemma runTargets_cons_stop (h : Host) (stop : Nat → Bool) (ss : List String)
    (saveFlag : Bool) (t : String) (rest : List String) (st : RunState)
    (h1 : stop st.currentStep = true) :
    runTargets h stop ss saveFlag (t :: rest) st = ⟨st, [], [], .abortReturn⟩ := by
  simp [runTargets, h1]

lemma runTargets_cons_missing (h : Host) (stop : Nat → Bool) (ss : List String)
    (saveFlag : Bool) (t : String) (rest : List String) (st : RunState)
    (h1 : stop st.currentStep = false) (h2 : h.pathExists t = false) :
    runTargets h stop ss saveFlag (t :: rest) st =
      runTargets h stop ss saveFlag rest { st with errors := true } := by
  simp [runTargets, h1, h2]

lemma runTargets_cons_loadfail (h : Host) (stop : Nat → Bool) (ss : List String)
    (saveFlag : Bool) (t : String) (rest : List String) (st : RunState)
    (h1 : stop st.currentStep = false) (h2 : h.pathExists t = true)
    (h3 : h.loadOk t = false) :
    runTargets h stop ss saveFlag (t :: rest) st =
      OuterRes.push [.load t] []
        (runTargets h stop ss saveFlag rest { st with errors := true }) := by
  simp [runTargets, h1, h2, h3, OuterRes.push]

lemma runTargets_cons_abort (h : Host) (stop : Nat → Bool) (ss : List String)
    (saveFlag : Bool) (t : String) (rest : List String) (st : RunState)
    (h1 : stop st.currentStep = false) (h2 : h.pathExists t = true)
    (h3 : h.loadOk t = true)
    (h4 : (runScripts h stop t ss st).exit = .abortReturn) :
    runTargets h stop ss saveFlag (t :: rest) st =
      ⟨(runScripts h stop t ss st).st,
        .load t :: (runScripts h stop t ss st).ops,
        (runScripts h stop t ss st).prog, .abortReturn⟩ := by
  simp [runTargets, h1, h2, h3, h4]

lemma runTargets_cons_go (h : Host) (stop : Nat → Bool) (ss : List String)
    (saveFlag : Bool) (t : String) (rest : List String) (st : RunState)
    (h1 : stop st.currentStep = false) (h2 : h.pathExists t = true)
    (h3 : h.loadOk t = true)
    (h4 : (runScripts h stop t ss st).exit ≠ .abortReturn) :
    runTargets h stop ss saveFlag (t :: rest) st =
      OuterRes.push
        (.load t :: ((runScripts h stop t ss st).ops ++
          (if saveFlag && !(stop (runScripts h stop t ss st).st.currentStep)
            then [.save t] else [])))
        (runScripts h stop t ss st).prog
        (runTargets h stop ss saveFlag rest
          (if (saveFlag && !(stop (runScripts h stop t ss st).st.currentStep))
              && !(h.saveOk t)
            then { (runScripts h stop t ss st).st with errors := true }
            else (runScripts h stop t ss st).st)) := by
  simp [runTargets, h1, h2, h3, h4, OuterRes.push]

/-! ### Error-flag monotonicity and exit classification -/

/-- Once `errors_occurred` is set it stays set through the scripts loop. -/
lemma runScripts_errors_mono (h : Host) (stop : Nat → Bool) (t : String)
    (ss : List String) (st : RunState) (he : st.errors = true) :
    (runScripts h stop t ss st).st.errors = true := by
  induction ss generalizing st with
  | nil => simpa [runScripts_nil] using he
  | cons s rest ih =>
    rcases hb1 : stop st.currentStep with _ | _
    · rcases hb2 : h.pathExists s with _ | _
      · rw [runScripts_cons_missing h stop t s rest st hb1 hb2]
        exact ih _ rfl
      · rcases hb3 : h.runOk s t with _ | _
        · rw [runScripts_cons_runfail h stop t s rest st hb1 hb2 hb3]
          simpa [InnerRes.push] using ih _ rfl
        · rcases hb4 : st.gAbort || h.abortSignal s t with _ | _
          · rcases hb5 : stop (st.currentStep + 1) with _ | _
            · rw [runScripts_cons_step h stop t s rest st hb1 hb2 hb3 hb4 hb5]
              simpa [InnerRes.push] using ih ⟨st.currentStep + 1, st.errors, false⟩ he
            · rw [runScripts_cons_step_abort h stop t s rest st hb1 hb2 hb3 hb4 hb5]
              simpa using he
          · rw [runScripts_cons_gbreak h stop t s rest st hb1 hb2 hb3 hb4]
            simpa using he
    · rw [runScripts_cons_stop h stop t s rest st hb1]
      simpa using he

/-- Once `errors_occurred` is set it stays set through the targets loop. -/
lemma runTargets_errors_mono (h : Host) (stop : Nat → Bool) (ss : List String)
    (saveFlag : Bool) (ts : List String) (st : RunState) (he : st.errors = true) :
    (runTargets h stop ss saveFlag ts st).st.errors = true := by
  induction ts generalizing st with
  | nil => simpa [runTargets_nil] using he
  | cons t rest ih =>
    rcases hb1 : stop st.currentStep with _ | _
    · rcases hb2 : h.pathExists t with _ | _
      · rw [runTargets_cons_missing h stop ss saveFlag t rest st hb1 hb2]
        exact ih _ rfl
      · rcases hb3 : h.loadOk t with _ | _
        · rw [runTargets_cons_loadfail h stop ss saveFlag t rest st hb1 hb2 hb3]
          simpa [OuterRes.push] using ih _ rfl
        · have hi : (runScripts h stop t ss st).st.errors = true :=
            runScripts_errors_mono h stop t ss st he
          by_cases h4 : (runScripts h stop t ss st).exit = .abortReturn
          · rw [runTargets_cons_abort h stop ss saveFlag t rest st hb1 hb2 hb3 h4]
            simpa using hi
          · rw [runTargets_cons_go h stop ss saveFlag t rest st hb1 hb2 hb3 h4]
            simp only [OuterRes.push]
            exact ih _ (by split <;> simp [hi])
    · rw [runTargets_cons_stop h stop ss saveFlag t rest st hb1]
      simpa using he

/-- If the UI stop flag is never set, the scripts loop never breaks on it
and never returns from the post-step abort checkpoint. -/
lemma runScripts_exit_no_stop (h : Host) (stop : Nat → Bool) (t : String)
    (ss : List String) (st : RunState) (hstop : ∀ n, stop n = false) :
    (runScripts h stop t ss st).exit = .normal ∨
      (runScripts h stop t ss st).exit = .gAbortBreak := by
  induction ss generalizing st with
  | nil => left; rfl
  | cons s rest ih =>
    have hb1 := hstop st.currentStep
    rcases hb2 : h.pathExists s with _ | _
    · rw [runScripts_cons_missing h stop t s rest st hb1 hb2]
      exact ih _
    · rcases hb3 : h.runOk s t with _ | _
      · rw [runScripts_cons_runfail h stop t s rest st hb1 hb2 hb3]
        simpa [InnerRes.push] using ih _
      · rcases hb4 : st.gAbort || h.abortSignal s t with _ | _
        · rw [runScripts_cons_step h stop t s rest st hb1 hb2 hb3 hb4 (hstop _)]
          simpa [InnerRes.push] using ih _
        · rw [runScripts_cons_gbreak h stop t s rest st hb1 hb2 hb3 hb4]
          right; rfl

/-- If the UI stop flag is never set, the targets loop runs to its end. -/
lemma runTargets_exit_no_stop (h : Host) (stop : Nat → Bool) (ss : List String)
    (saveFlag : Bool) (ts : List String) (st : RunState)
    (hstop : ∀ n, stop n = false) :
    (runTargets h stop ss saveFlag ts st).exit = .finished := by
  induction ts generalizing st with
  | nil => rfl
  | cons t rest ih =>
    have hb1 := hstop st.currentStep
    rcases hb2 : h.pathExists t with _ | _
    · rw [runTargets_cons_missing h stop ss saveFlag t rest st hb1 hb2]
      exact ih _
    · rcases hb3 : h.loadOk t with _ | _
      · rw [runTargets_cons_loadfail h stop ss saveFlag t rest st hb1 hb2 hb3]
        simpa [OuterRes.push] using ih _
      · have h4 : (runScripts h stop t ss st).exit ≠ .abortReturn := by
          rcases runScripts_exit_no_stop h stop t ss st hstop with he | he <;>
            simp [he]
        rw [runTargets_cons_go h stop ss saveFlag t rest st hb1 hb2 hb3 h4]
        simpa [OuterRes.push] using ih _

/-- If the stop flag is down and the script file exists, the first host
operation of the scripts loop is the `fileIn` of that script, whether or
not it succeeds. -/
lemma runScripts_cons_ops_head (h : Host) (stop : Nat → Bool) (t s : String)
    (rest : List String) (st : RunState)
    (h1 : stop st.currentStep = false) (h2 : h.pathExists s = true) :
    ∃ l, (runScripts h stop t (s :: rest) st).ops = .run s t :: l := by
  rcases hb3 : h.runOk s t with _ | _
  · rw [runScripts_cons_runfail h stop t s rest st h1 h2 hb3]
    exact ⟨_, rfl⟩
  · rcases hb4 : st.gAbort || h.abortSignal s t with _ | _
    · rcases hb5 : stop (st.currentStep + 1) with _ | _
      · rw [runScripts_cons_step h stop t s rest st h1 h2 hb3 hb4 hb5]
        exact ⟨_, rfl⟩
      · rw [runScripts_cons_step_abort h stop t s rest st h1 h2 hb3 hb4 hb5]
        exact ⟨_, rfl⟩
    · rw [runScripts_cons_gbreak h stop t s rest st h1 h2 hb3 hb4]
      exact ⟨_, rfl⟩

/-- If no `fileIn` call ever raises the host-side abort flag, the latched
`g_abortRequested` stays down through the scripts loop. -/
lemma runScripts_gAbort_false (h : Host) (stop : Nat → Bool) (t : String)
    (ss : List String) (st : RunState)
    (hsg : ∀ p u, h.abortSignal p u = false) (hg : st.gAbort = false) :
    (runScripts h stop t ss st).st.gAbort = false := by
  induction ss generalizing st with
  | nil => simpa [runScripts_nil] using hg
  | cons s rest ih =>
    rcases hb1 : stop st.currentStep with _ | _
    · rcases hb2 : h.pathExists s with _ | _
      · rw [runScripts_cons_missing h stop t s rest st hb1 hb2]
        exact ih _ hg
      · rcases hb3 : h.runOk s t with _ | _
        · rw [runScripts_cons_runfail h stop t s rest st hb1 hb2 hb3]
          simp only [InnerRes.push]
          exact ih _ (by simp [hg, hsg])
        · rcases hb4 : st.gAbort || h.abortSignal s t with _ | _
          · rcases hb5 : stop (st.currentStep + 1) with _ | _
            · rw [runScripts_cons_step h stop t s rest st hb1 hb2 hb3 hb4 hb5]
              simp only [InnerRes.push]
              exact ih _ rfl
            · rw [runScripts_cons_step_abort h stop t s rest st hb1 hb2 hb3
                hb4 hb5]
          · exfalso
            rw [hg, hsg] at hb4
            simp at hb4
    · rw [runScripts_cons_stop h stop t s rest st hb1]
      simpa using hg

/-- If no `fileIn` call ever raises the host-side abort flag, the latched
`g_abortRequested` stays down through the targets loop. -/
lemma runTargets_gAbort_false (h : Host) (stop : Nat → Bool)
    (ss : List String) (saveFlag : Bool) (ts : List String) (st : RunState)
    (hsg : ∀ p u, h.abortSignal p u = false) (hg : st.gAbort = false) :
    (runTargets h stop ss saveFlag ts st).st.gAbort = false := by
  induction ts generalizing st with
  | nil => simpa [runTargets_nil] using hg
  | cons t rest ih =>
    rcases hb1 : stop st.currentStep with _ | _
    · rcases hb2 : h.pathExists t with _ | _
      · rw [runTargets_cons_missing h stop ss saveFlag t rest st hb1 hb2]
        exact ih _ hg
      · rcases hb3 : h.loadOk t with _ | _
        · rw [runTargets_cons_loadfail h stop ss saveFlag t rest st hb1 hb2 hb3]
          simp only [OuterRes.push]
          exact ih _ hg
        · have hig : (runScripts h stop t ss st).st.gAbort = false :=
            runScripts_gAbort_false h stop t ss st hsg hg
          by_cases h4 : (runScripts h stop t ss st).exit = .abortReturn
          · rw [runTargets_cons_abort h stop ss saveFlag t rest st hb1 hb2
              hb3 h4]
            simpa using hig
          · rw [runTargets_cons_go h stop ss saveFlag t rest st hb1 hb2 hb3 h4]
            simp only [OuterRes.push]
            exact ih _ (by split <;> simpa using hig)
    · rw [runTargets_cons_stop h stop ss saveFlag t rest st hb1]
      simpa using hg

/-- With the stop flag never pressed the targets loop never returns early,
so it processes an appended list of targets as the first list followed by
the second from the state the first left behind. -/
lemma runTargets_append_no_stop (h : Host) (stop : Nat → Bool)
    (ss : List String) (saveFlag : Bool) (l1 l2 : List String) (st : RunState)
    (hstop : ∀ n, stop n = false) :
    runTargets h stop ss saveFlag (l1 ++ l2) st =
      OuterRes.push (runTargets h stop ss saveFlag l1 st).ops
        (runTargets h stop ss saveFlag l1 st).prog
        (runTargets h stop ss saveFlag l2
          (runTargets h stop ss saveFlag l1 st).st) := by
  induction l1 generalizing st with
  | nil => simp [runTargets_nil, OuterRes.push]
  | cons t1 rest1 ih =>
    have hb1 := hstop st.currentStep
    rcases hb2 : h.pathExists t1 with _ | _
    · rw [List.cons_append,
        runTargets_cons_missing h stop ss saveFlag t1 (rest1 ++ l2) st hb1 hb2,
        runTargets_cons_missing h stop ss saveFlag t1 rest1 st hb1 hb2]
      exact ih _
    · rcases hb3 : h.loadOk t1 with _ | _
      · rw [List.cons_append,
          runTargets_cons_loadfail h stop ss saveFlag t1 (rest1 ++ l2) st hb1
            hb2 hb3,
          runTargets_cons_loadfail h stop ss saveFlag t1 rest1 st hb1 hb2 hb3,
          ih _]
        simp [OuterRes.push]
      · have h4 : (runScripts h stop t1 ss st).exit ≠ .abortReturn := by
          rcases runScripts_exit_no_stop h stop t1 ss st hstop with he | he <;>
            simp [he]
        rw [List.cons_append,
          runTargets_cons_go h stop ss saveFlag t1 (rest1 ++ l2) st hb1 hb2
            hb3 h4,
          runTargets_cons_go h stop ss saveFlag t1 rest1 st hb1 hb2 hb3 h4,
          ih _]
        simp [OuterRes.push]

/-- A script that exists but whose `fileIn` raises sets `errors_occurred`
wherever it sits in the script list (stop flag never pressed, no host
abort signal). -/
lemma runScripts_errors_of_failing (h : Host) (stop : Nat → Bool)
    (t : String) (pre : List String) (s : String) (rest : List String)
    (st : RunState)
    (hstop : ∀ n, stop n = false) (hsg : ∀ p u, h.abortSignal p u = false)
    (hg : st.gAbort = false)
    (hps : h.pathExists s = true) (hrs : h.runOk s t = false) :
    (runScripts h stop t (pre ++ s :: rest) st).st.errors = true := by
  induction pre generalizing st with
  | nil =>
    rw [List.nil_append,
      runScripts_cons_runfail h stop t s rest st (hstop _) hps hrs]
    simp only [InnerRes.push]
    exact runScripts_errors_mono h stop t rest _ rfl
  | cons p pre2 ih =>
    rw [List.cons_append]
    rcases hb2 : h.pathExists p with _ | _
    · rw [runScripts_cons_missing h stop t p _ st (hstop _) hb2]
      exact ih _ hg
    · rcases hb3 : h.runOk p t with _ | _
      · rw [runScripts_cons_runfail h stop t p _ st (hstop _) hb2 hb3]
        simp only [InnerRes.push]
        exact ih _ (by simp [hg, hsg])
      · have hb4 : (st.gAbort || h.abortSignal p t) = false := by
          simp [hg, hsg]
        rw [runScripts_cons_step h stop t p _ st (hstop _) hb2 hb3 hb4
          (hstop _)]
        simp only [InnerRes.push]
        exact ih _ rfl

/-! ### Counting script runs in a trace -/

lemma countRuns_cons_load (t : String) (l : List HostOp) :
    countRuns (.load t :: l) = countRuns l := by
  simp [countRuns, List.countP_cons, isRunOp]

lemma countRuns_cons_save (t : String) (l : List HostOp) :
    countRuns (.save t :: l) = countRuns l := by
  simp [countRuns, List.countP_cons, isRunOp]

lemma countRuns_append (l1 l2 : List HostOp) :
    countRuns (l1 ++ l2) = countRuns l1 + countRuns l2 :=
  List.countP_append _ l1 l2

lemma countRuns_map_run (l : List String) (t : String) :
    countRuns (l.map fun p => .run p t) = l.length := by
  simp only [countRuns, List.countP_map]
  exact List.countP_eq_length.mpr fun a _ => rfl

/-! ### Behaviour on an all-success host -/

/-- On a host where every path exists, every run succeeds and no host
abort is signalled, the scripts loop runs every script of the list — one
step each — as long as the stop flag stays down throughout. -/
lemma runScripts_allOk (h : Host) (stop : Nat → Bool) (t : String)
    (ss : List String) (st : RunState)
    (hex : ∀ p, h.pathExists p = true)
    (hrn : ∀ p u, h.runOk p u = true)
    (hsg : ∀ p u, h.abortSignal p u = false)
    (hg : st.gAbort = false)
    (hstop : ∀ n, n ≤ st.currentStep + ss.length → stop n = false) :
    runScripts h stop t ss st =
      ⟨⟨st.currentStep + ss.length, st.errors, false⟩,
        ss.map (fun p => .run p t),
        List.range' (st.currentStep + 1) ss.length, .normal⟩ := by
  induction ss generalizing st with
  | nil =>
    obtain ⟨c, e, g⟩ := st
    simp only at hg
    subst hg
    simp [runScripts_nil]
  | cons s rest ih =>
    have h1 : stop st.currentStep = false :=
      hstop _ (by simp only [List.length_cons]; omega)
    have hb4 : (st.gAbort || h.abortSignal s t) = false := by simp [hg, hsg]
    have h5 : stop (st.currentStep + 1) = false :=
      hstop _ (by simp only [List.length_cons]; omega)
    rw [runScripts_cons_step h stop t s rest st h1 (hex s) (hrn s t) hb4 h5]
    rw [ih ⟨st.currentStep + 1, st.errors, false⟩ rfl
      (fun n hn => hstop n (by simp only [List.length_cons] at hn ⊢; omega))]
    simp [InnerRes.push, List.range'_succ, RunState.mk.injEq, InnerRes.mk.injEq]
    omega

/-- On an all-success host with the stop flag raised from completed step
`k` onwards, the scripts loop performs exactly the steps up to `k` and
returns from the post-step abort checkpoint. -/
lemma runScripts_allOk_abort (h : Host) (stop : Nat → Bool) (t : String)
    (k : Nat) (ss : List String) (st : RunState)
    (hex : ∀ p, h.pathExists p = true)
    (hrn : ∀ p u, h.runOk p u = true)
    (hsg : ∀ p u, h.abortSignal p u = false)
    (hstop : ∀ n, stop n = decide (k ≤ n))
    (hg : st.gAbort = false)
    (hclt : st.currentStep < k) (hge : k ≤ st.currentStep + ss.length) :
    runScripts h stop t ss st =
      ⟨⟨k, st.errors, false⟩,
        (ss.take (k - st.currentStep)).map (fun p => .run p t),
        List.range' (st.currentStep + 1) (k - st.currentStep),
        .abortReturn⟩ := by
  induction ss generalizing st with
  | nil => exfalso; simp at hge; omega
  | cons s rest ih =>
    have h1 : stop st.currentStep = false := by
      rw [hstop]; simp; omega
    have hb4 : (st.gAbort || h.abortSignal s t) = false := by simp [hg, hsg]
    by_cases hk1 : k = st.currentStep + 1
    · have h5 : stop (st.currentStep + 1) = true := by
        rw [hstop]; simp; omega
      rw [runScripts_cons_step_abort h stop t s rest st h1 (hex s) (hrn s t)
        hb4 h5]
      have hkc : k - st.currentStep = 1 := by omega
      rw [hkc]
      subst hk1
      simp
    · have h5 : stop (st.currentStep + 1) = false := by
        rw [hstop]; simp; omega
      rw [runScripts_cons_step h stop t s rest st h1 (hex s) (hrn s t) hb4 h5]
      rw [ih ⟨st.currentStep + 1, st.errors, false⟩ rfl
        (by show st.currentStep + 1 < k; omega)
        (by show k ≤ st.currentStep + 1 + rest.length
            simp only [List.length_cons] at hge; omega)]
      have hkc : k - st.currentStep = (k - (st.currentStep + 1)) + 1 := by omega
      rw [hkc, List.range'_succ]
      simp [InnerRes.push]

/-- On an all-success host with the stop flag raised from completed step
`k` onwards, and enough remaining (target, script) pairs to reach step
`k`, the targets loop returns from an abort checkpoint with exactly `k`
steps completed; the trace holds exactly `k - start` run operations and
ends with a run operation (the one of step `k`). -/
lemma runTargets_allOk_abort (h : Host) (stop : Nat → Bool) (ss : List String)
    (saveFlag : Bool) (k : Nat) (ts : List String) (st : RunState)
    (hex : ∀ p, h.pathExists p = true)
    (hld : ∀ u, h.loadOk u = true)
    (hrn : ∀ p u, h.runOk p u = true)
    (hsg : ∀ p u, h.abortSignal p u = false)
    (hstop : ∀ n, stop n = decide (k ≤ n))
    (hg : st.gAbort = false)
    (hclt : st.currentStep < k)
    (hge : k ≤ st.currentStep + ts.length * ss.length) :
    (runTargets h stop ss saveFlag ts st).exit = .abortReturn ∧
    (runTargets h stop ss saveFlag ts st).st.currentStep = k ∧
    countRuns (runTargets h stop ss saveFlag ts st).ops =
      k - st.currentStep ∧
    ∃ l p u, (runTargets h stop ss saveFlag ts st).ops =
      l ++ [.run p u] := by
  induction ts generalizing st with
  | nil => exfalso; simp at hge; omega
  | cons t rest ih =>
    have h1 : stop st.currentStep = false := by
      rw [hstop]; simp; omega
    have hmul : (rest.length + 1) * ss.length =
        rest.length * ss.length + ss.length := by ring
    by_cases hcase : k ≤ st.currentStep + ss.length
    · have hinner := runScripts_allOk_abort h stop t k ss st hex hrn hsg hstop
        hg hclt hcase
      have hax : (runScripts h stop t ss st).exit = .abortReturn := by
        rw [hinner]
      rw [runTargets_cons_abort h stop ss saveFlag t rest st h1 (hex t)
        (hld t) hax]
      refine ⟨rfl, by rw [hinner], ?_, ?_⟩
      · rw [hinner]
        simp only
        rw [countRuns_cons_load, countRuns_map_run, List.length_take]
        omega
      · rw [hinner]
        simp only
        have hne : 0 < (ss.take (k - st.currentStep)).length := by
          rw [List.length_take]; omega
        rcases List.eq_nil_or_concat (ss.take (k - st.currentStep)) with
          hnil | ⟨L, b, hLb⟩
        · rw [hnil] at hne; simp at hne
        · refine ⟨.load t :: (L.map fun p => .run p t), b, t, ?_⟩
          rw [hLb]
          simp [List.concat_eq_append]
    · have hcase2 : st.currentStep + ss.length < k := by omega
      have hinner := runScripts_allOk h stop t ss st hex hrn hsg hg
        (fun n hn => by rw [hstop]; simp; omega)
      have hnex : (runScripts h stop t ss st).exit ≠ .abortReturn := by
        rw [hinner]; simp
      rw [runTargets_cons_go h stop ss saveFlag t rest st h1 (hex t)
        (hld t) hnex]
      rw [hinner]
      have hsf : stop (st.currentStep + ss.length) = false := by
        rw [hstop]; simp; omega
      simp only [OuterRes.push, hsf, Bool.not_false, Bool.and_true]
      have hkey : ∀ E : Bool,
          (runTargets h stop ss saveFlag rest
            ⟨st.currentStep + ss.length, E, false⟩).exit = .abortReturn ∧
          (runTargets h stop ss saveFlag rest
            ⟨st.currentStep + ss.length, E, false⟩).st.currentStep = k ∧
          countRuns (runTargets h stop ss saveFlag rest
            ⟨st.currentStep + ss.length, E, false⟩).ops =
            k - (st.currentStep + ss.length) ∧
          ∃ l p u, (runTargets h stop ss saveFlag rest
            ⟨st.currentStep + ss.length, E, false⟩).ops = l ++ [.run p u] :=
        fun E => ih ⟨st.currentStep + ss.length, E, false⟩ rfl hcase2
          (by show k ≤ st.currentStep + ss.length + rest.length * ss.length
              simp only [List.length_cons] at hge; omega)
      have hsops : countRuns (if saveFlag = true then [HostOp.save t] else []) = 0 := by
        split <;> simp [countRuns, isRunOp]
      rcases hif : saveFlag && !(h.saveOk t) with _ | _
      · rw [if_neg (by simp : ¬(false = true))]
        obtain ⟨hk1, hk2, hk3, l, p, u, hk4⟩ := hkey st.errors
        refine ⟨hk1, hk2, ?_, ?_⟩
        · simp only [countRuns_append, countRuns_cons_load]
          rw [countRuns_map_run, hk3, hsops]
          omega
        · refine ⟨HostOp.load t :: ((ss.map fun p => HostOp.run p t) ++
            (if saveFlag = true then [HostOp.save t] else []) ++ l), p, u, ?_⟩
          rw [hk4]
          simp
      · rw [if_pos (rfl : (true : Bool) = true)]
        obtain ⟨hk1, hk2, hk3, l, p, u, hk4⟩ := hkey true
        refine ⟨hk1, hk2, ?_, ?_⟩
        · simp only [countRuns_append, countRuns_cons_load]
          rw [countRuns_map_run, hk3, hsops]
          omega
        · refine ⟨HostOp.load t :: ((ss.map fun p => HostOp.run p t) ++
            (if saveFlag = true then [HostOp.save t] else []) ++ l), p, u, ?_⟩
          rw [hk4]
          simp

/-! ### Step counting and progress reporting -/

/-- However the scripts loop exits, it completes some `d ≤ |scripts|`
steps, incrementing `current_step` by exactly one per step and reporting
each new value to `updateProgress` in order. -/
lemma runScripts_steps (h : Host) (stop : Nat → Bool) (t : String)
    (ss : List String) (st : RunState) :
    ∃ d, (runScripts h stop t ss st).st.currentStep = st.currentStep + d ∧
      d ≤ ss.length ∧
      (runScripts h stop t ss st).prog =
        List.range' (st.currentStep + 1) d := by
  induction ss generalizing st with
  | nil => exact ⟨0, by simp [runScripts_nil]⟩
  | cons s rest ih =>
    rcases hb1 : stop st.currentStep with _ | _
    · rcases hb2 : h.pathExists s with _ | _
      · rw [runScripts_cons_missing h stop t s rest st hb1 hb2]
        obtain ⟨d, hd1, hd2, hd3⟩ := ih { st with errors := true }
        exact ⟨d, hd1, by simp only [List.length_cons]; omega, hd3⟩
      · rcases hb3 : h.runOk s t with _ | _
        · rw [runScripts_cons_runfail h stop t s rest st hb1 hb2 hb3]
          obtain ⟨d, hd1, hd2, hd3⟩ :=
            ih { st with errors := true, gAbort := st.gAbort || h.abortSignal s t }
          refine ⟨d, ?_, by simp only [List.length_cons]; omega, ?_⟩
          · simpa [InnerRes.push] using hd1
          · simpa [InnerRes.push] using hd3
        · rcases hb4 : st.gAbort || h.abortSignal s t with _ | _
          · rcases hb5 : stop (st.currentStep + 1) with _ | _
            · rw [runScripts_cons_step h stop t s rest st hb1 hb2 hb3 hb4 hb5]
              obtain ⟨d, hd1, hd2, hd3⟩ := ih ⟨st.currentStep + 1, st.errors, false⟩
              refine ⟨d + 1, ?_, by simp only [List.length_cons]; omega, ?_⟩
              · simp only [InnerRes.push]
                rw [hd1]
                show st.currentStep + 1 + d = st.currentStep + (d + 1)
                omega
              · simp only [InnerRes.push]
                rw [hd3, List.range'_succ]
                rfl
            · rw [runScripts_cons_step_abort h stop t s rest st hb1 hb2 hb3 hb4 hb5]
              exact ⟨1, rfl, by simp, by simp⟩
          · rw [runScripts_cons_gbreak h stop t s rest st hb1 hb2 hb3 hb4]
            exact ⟨0, by simp, by simp, by simp⟩
    · rw [runScripts_cons_stop h stop t s rest st hb1]
      exact ⟨0, by simp, by simp, by simp⟩

/-- However the targets loop exits, it completes some
`d ≤ |targets| * |scripts|` steps, and the successive `current_step`
values reported to `updateProgress` are exactly
`start + 1, start + 2, …, start + d`. -/
lemma runTargets_steps (h : Host) (stop : Nat → Bool) (ss : List String)
    (saveFlag : Bool) (ts : List String) (st : RunState) :
    ∃ d, (runTargets h stop ss saveFlag ts st).st.currentStep =
        st.currentStep + d ∧
      d ≤ ts.length * ss.length ∧
      (runTargets h stop ss saveFlag ts st).prog =
        List.range' (st.currentStep + 1) d := by
  induction ts generalizing st with
  | nil => exact ⟨0, by simp [runTargets_nil]⟩
  | cons t rest ih =>
    have hmul : (rest.length + 1) * ss.length =
        rest.length * ss.length + ss.length := by ring
    rcases hb1 : stop st.currentStep with _ | _
    · rcases hb2 : h.pathExists t with _ | _
      · rw [runTargets_cons_missing h stop ss saveFlag t rest st hb1 hb2]
        obtain ⟨d, hd1, hd2, hd3⟩ := ih { st with errors := true }
        exact ⟨d, hd1, by simp only [List.length_cons]; omega, hd3⟩
      · rcases hb3 : h.loadOk t with _ | _
        · rw [runTargets_cons_loadfail h stop ss saveFlag t rest st hb1 hb2 hb3]
          obtain ⟨d, hd1, hd2, hd3⟩ := ih { st with errors := true }
          refine ⟨d, ?_, by simp only [List.length_cons]; omega, ?_⟩
          · simp [OuterRes.push, hd1]
          · simp [OuterRes.push, hd3]
        · obtain ⟨d1, hi1, hi2, hi3⟩ := runScripts_steps h stop t ss st
          by_cases h4 : (runScripts h stop t ss st).exit = .abortReturn
          · rw [runTargets_cons_abort h stop ss saveFlag t rest st hb1 hb2
              hb3 h4]
            refine ⟨d1, hi1, by simp only [List.length_cons]; omega, hi3⟩
          · rw [runTargets_cons_go h stop ss saveFlag t rest st hb1 hb2 hb3 h4]
            have hst2c :
                ((if (saveFlag && !(stop (runScripts h stop t ss st).st.currentStep))
                    && !(h.saveOk t)
                  then { (runScripts h stop t ss st).st with errors := true }
                  else (runScripts h stop t ss st).st) : RunState).currentStep =
                  (runScripts h stop t ss st).st.currentStep := by
              split <;> rfl
            obtain ⟨d2, ho1, ho2, ho3⟩ :=
              ih (if (saveFlag && !(stop (runScripts h stop t ss st).st.currentStep))
                    && !(h.saveOk t)
                  then { (runScripts h stop t ss st).st with errors := true }
                  else (runScripts h stop t ss st).st)
            refine ⟨d1 + d2, ?_, by simp only [List.length_cons]; omega, ?_⟩
            · simp only [OuterRes.push]
              rw [ho1, hst2c, hi1]
              omega
            · simp only [OuterRes.push]
              rw [hi3, ho3, hst2c, hi1]
              have hra : List.range' (st.currentStep + 1) d1 ++
                  List.range' ((st.currentStep + 1) + d1) d2 =
                  List.range' (st.currentStep + 1) (d1 + d2) := by
                rw [Nat.add_comm d1 d2]
                simp
              rw [show st.currentStep + d1 + 1 = st.currentStep + 1 + d1 from
                by omega]
              exact hra
    · rw [runTargets_cons_stop h stop ss saveFlag t rest st hb1]
      exact ⟨0, by simp, by simp, by simp⟩

/-- On an all-success host with the stop flag never raised, the targets
loop completes every one of the `|targets| * |scripts|` steps. -/
lemma runTargets_allOk_noStop (h : Host) (stop : Nat → Bool)
    (ss : List String) (saveFlag : Bool) (ts : List String) (st : RunState)
    (hex : ∀ p, h.pathExists p = true)
    (hld : ∀ u, h.loadOk u = true)
    (hrn : ∀ p u, h.runOk p u = true)
    (hsg : ∀ p u, h.abortSignal p u = false)
    (hstop : ∀ n, stop n = false) (hg : st.gAbort = false) :
    (runTargets h stop ss saveFlag ts st).st.currentStep =
      st.currentStep + ts.length * ss.length := by
  induction ts generalizing st with
  | nil => simp [runTargets_nil]
  | cons t rest ih =>
    have hmul : (rest.length + 1) * ss.length =
        rest.length * ss.length + ss.length := by ring
    have hinner := runScripts_allOk h stop t ss st hex hrn hsg hg
      (fun n _ => hstop n)
    have hnex : (runScripts h stop t ss st).exit ≠ .abortReturn := by
      rw [hinner]; simp
    rw [runTargets_cons_go h stop ss saveFlag t rest st (hstop _) (hex t)
      (hld t) hnex]
    rw [hinner]
    simp only [OuterRes.push, hstop, Bool.not_false, Bool.and_true]
    rcases hif : saveFlag && !(h.saveOk t) with _ | _
    · rw [if_neg (by simp : ¬(false = true))]
      rw [ih ⟨st.currentStep + ss.length, st.errors, false⟩ rfl]
      show st.currentStep + ss.length + rest.length * ss.length =
        st.currentStep + (t :: rest).length * ss.length
      simp only [List.length_cons]
      omega
    · rw [if_pos (rfl : (true : Bool) = true)]
      rw [ih ⟨st.currentStep + ss.length, true, false⟩ rfl]
      show st.currentStep + ss.length + rest.length * ss.length =
        st.currentStep + (t :: rest).length * ss.length
      simp only [List.length_cons]
      omega

/-! ### Claim theorems -/

/-- Claim C1: whenever the host `fileIn` of a script `s` raises — at any
step of the run: the scripts of the enclosing target `t` are
`pre ++ s :: rest` and the targets `preT ++ t :: restT`, so the failure
may sit at any position of any target's inner loop — with the UI stop
flag never pressed, no host abort signal, and `saveAfterEach` set, the
engine: (1) at the failing step (from any state the loop may be in)
records the error, emits only the failing run attempt and continues the
same inner loop with exactly the remaining scripts — so only the failing
script is skipped; (2) immediately attempts the next script of the same
target when there is one; (3) still attempts `save t` during the whole
run; and (4) finalizes the run as `CompletedWithErrors` rather than
aborting. -/
theorem runFailure_isolated (h : Host) (stop : Nat → Bool) (t s : String)
    (pre rest preT restT : List String)
    (hstop : ∀ n, stop n = false)
    (hsg : ∀ p u, h.abortSignal p u = false)
    (hpt : h.pathExists t = true) (hlt : h.loadOk t = true)
    (hps : h.pathExists s = true) (hrs : h.runOk s t = false) :
    (∀ st : RunState, runScripts h stop t (s :: rest) st =
      InnerRes.push (.run s t) []
        (runScripts h stop t rest { st with errors := true })) ∧
    (∀ (st : RunState) s2 rest2, rest = s2 :: rest2 →
      h.pathExists s2 = true →
      ∃ l, (runScripts h stop t (s :: rest) st).ops =
        .run s t :: .run s2 t :: l) ∧
    .save t ∈ (processFiles h stop (pre ++ s :: rest)
      (preT ++ t :: restT) true).ops ∧
    (processFiles h stop (pre ++ s :: rest)
      (preT ++ t :: restT) true).errors = true ∧
    (processFiles h stop (pre ++ s :: rest)
      (preT ++ t :: restT) true).result = .completedWithErrors := by
  have hstep : ∀ st : RunState, runScripts h stop t (s :: rest) st =
      InnerRes.push (.run s t) []
        (runScripts h stop t rest { st with errors := true }) := by
    intro st
    rw [runScripts_cons_runfail h stop t s rest st (hstop _) hps hrs]
    simp [hsg]
  refine ⟨hstep, ?_, ?_⟩
  · intro st s2 rest2 hrest hps2
    subst hrest
    obtain ⟨l, hl⟩ := runScripts_cons_ops_head h stop t s2 rest2
      { st with errors := true } (hstop _) hps2
    rw [hstep st]
    simp only [InnerRes.push]
    rw [hl]
    exact ⟨l, rfl⟩
  · have htot : ¬((preT ++ t :: restT).length * (pre ++ s :: rest).length
        = 0) := by simp
    have hmidg : (runTargets h stop (pre ++ s :: rest) true preT
        ⟨0, false, false⟩).st.gAbort = false :=
      runTargets_gAbort_false h stop (pre ++ s :: rest) true preT
        ⟨0, false, false⟩ hsg rfl
    have happ := runTargets_append_no_stop h stop (pre ++ s :: rest) true
      preT (t :: restT) ⟨0, false, false⟩ hstop
    have hie : (runScripts h stop t (pre ++ s :: rest)
        (runTargets h stop (pre ++ s :: rest) true preT
          ⟨0, false, false⟩).st).st.errors = true :=
      runScripts_errors_of_failing h stop t pre s rest _ hstop hsg hmidg
        hps hrs
    have hnex : (runScripts h stop t (pre ++ s :: rest)
        (runTargets h stop (pre ++ s :: rest) true preT
          ⟨0, false, false⟩).st).exit ≠ .abortReturn := by
      rcases runScripts_exit_no_stop h stop t (pre ++ s :: rest)
        (runTargets h stop (pre ++ s :: rest) true preT
          ⟨0, false, false⟩).st hstop with he | he <;> simp [he]
    have hcons := runTargets_cons_go h stop (pre ++ s :: rest) true t restT
      (runTargets h stop (pre ++ s :: rest) true preT ⟨0, false, false⟩).st
      (hstop _) hpt hlt hnex
    have hr1err : (runTargets h stop (pre ++ s :: rest) true (t :: restT)
        (runTargets h stop (pre ++ s :: rest) true preT
          ⟨0, false, false⟩).st).st.errors = true := by
      rw [hcons]
      simp only [OuterRes.push]
      exact runTargets_errors_mono h stop (pre ++ s :: rest) true restT _
        (by split <;> simp [hie])
    have hrerr : (runTargets h stop (pre ++ s :: rest) true
        (preT ++ t :: restT) ⟨0, false, false⟩).st.errors = true := by
      rw [happ]
      simp only [OuterRes.push]
      exact hr1err
    have hoexit : (runTargets h stop (pre ++ s :: rest) true
        (preT ++ t :: restT) ⟨0, false, false⟩).exit = .finished :=
      runTargets_exit_no_stop h stop (pre ++ s :: rest) true
        (preT ++ t :: restT) _ hstop
    have hsave : .save t ∈ (runTargets h stop (pre ++ s :: rest) true
        (preT ++ t :: restT) ⟨0, false, false⟩).ops := by
      rw [happ]
      simp only [OuterRes.push]
      rw [hcons]
      simp [OuterRes.push, hstop]
    unfold processFiles
    rw [if_neg htot, if_neg (by simp [hoexit])]
    exact ⟨hsave, hrerr, by simp [hrerr]⟩

theorem runFailure_isolated_witness :
    (processFiles runFailHost (fun _ => false) ["B", "A"] ["T1", "T2"]
      true).result = .completedWithErrors ∧
    (processFiles runFailHost (fun _ => false) ["B", "A"] ["T1", "T2"]
      true).errors = true ∧
    .save "T1" ∈ (processFiles runFailHost (fun _ => false) ["B", "A"]
      ["T1", "T2"] true).ops :=
  ⟨(runFailure_isolated runFailHost (fun _ => false) "T1" "A" ["B"] [] []
      ["T2"] (fun _ => rfl) (fun _ _ => rfl) rfl rfl rfl (by decide)).2.2.2.2,
   (runFailure_isolated runFailHost (fun _ => false) "T1" "A" ["B"] [] []
      ["T2"] (fun _ => rfl) (fun _ _ => rfl) rfl rfl rfl (by decide)).2.2.2.1,
   (runFailure_isolated runFailHost (fun _ => false) "T1" "A" ["B"] [] []
      ["T2"] (fun _ => rfl) (fun _ _ => rfl) rfl rfl rfl (by decide)).2.2.1⟩

/-- Claim C2: on an all-success host, if the UI abort flag becomes true
exactly after `k` completed steps (`0 ≤ k < m * n`, modelled by reading
the flag as `decide (k ≤ currentStep)` at every checkpoint), the run
terminates as `Aborted` with `currentStep = k`, and no host operation is
invoked past the checkpoint that observed the flag: the trace holds
exactly `k` run operations, is empty for `k = 0`, and for `k > 0` ends
with the run operation of step `k`. -/
theorem abort_checkpoint (h : Host) (stop : Nat → Bool) (ss ts : List String)
    (saveFlag : Bool) (k : Nat)
    (hex : ∀ p, h.pathExists p = true) (hld : ∀ u, h.loadOk u = true)
    (hrn : ∀ p u, h.runOk p u = true) (hsg : ∀ p u, h.abortSignal p u = false)
    (hstop : ∀ n, stop n = decide (k ≤ n))
    (hk : k < ts.length * ss.length) :
    (processFiles h stop ss ts saveFlag).result = .aborted ∧
    (processFiles h stop ss ts saveFlag).finalStep = k ∧
    countRuns (processFiles h stop ss ts saveFlag).ops = k ∧
    (k = 0 → (processFiles h stop ss ts saveFlag).ops = []) ∧
    (0 < k → ∃ l p u, (processFiles h stop ss ts saveFlag).ops =
      l ++ [.run p u]) := by
  have htot : ¬(ts.length * ss.length = 0) := by omega
  unfold processFiles
  rw [if_neg htot]
  by_cases hk0 : k = 0
  · subst hk0
    cases ts with
    | nil => simp at htot
    | cons t rest =>
      rw [runTargets_cons_stop h stop ss saveFlag t rest ⟨0, false, false⟩
        (by rw [hstop]; simp)]
      simp [countRuns]
  · obtain ⟨ha1, ha2, ha3, l, p, u, ha4⟩ :=
      runTargets_allOk_abort h stop ss saveFlag k ts ⟨0, false, false⟩
        hex hld hrn hsg hstop rfl (by show 0 < k; omega)
        (by show k ≤ 0 + ts.length * ss.length; omega)
    rw [if_pos ha1]
    refine ⟨rfl, ha2, ?_, fun hc => absurd hc hk0, fun _ => ⟨l, p, u, ha4⟩⟩
    rw [ha3]
    show k - 0 = k
    omega

theorem abort_checkpoint_witness :
    (processFiles allOkHost (fun n => decide (1 ≤ n)) ["A", "B"]
      ["T1", "T2"] true).result = .aborted ∧
    (processFiles allOkHost (fun n => decide (1 ≤ n)) ["A", "B"]
      ["T1", "T2"] true).finalStep = 1 ∧
    countRuns (processFiles allOkHost (fun n => decide (1 ≤ n)) ["A", "B"]
      ["T1", "T2"] true).ops = 1 :=
  ⟨(abort_checkpoint allOkHost (fun n => decide (1 ≤ n)) ["A", "B"]
      ["T1", "T2"] true 1 (fun _ => rfl) (fun _ => rfl) (fun _ _ => rfl)
      (fun _ _ => rfl) (fun _ => rfl) (by decide)).1,
   (abort_checkpoint allOkHost (fun n => decide (1 ≤ n)) ["A", "B"]
      ["T1", "T2"] true 1 (fun _ => rfl) (fun _ => rfl) (fun _ _ => rfl)
      (fun _ _ => rfl) (fun _ => rfl) (by decide)).2.1,
   (abort_checkpoint allOkHost (fun n => decide (1 ≤ n)) ["A", "B"]
      ["T1", "T2"] true 1 (fun _ => rfl) (fun _ => rfl) (fun _ _ => rfl)
      (fun _ _ => rfl) (fun _ => rfl) (by decide)).2.2.1⟩

/-- Claim C5: `total_steps` is computed once as `m * n` and never changes;
`current_step` starts at `0`, only ever moves in increments of exactly
`1` (the successive values passed to `updateProgress` are
`1, 2, …, finalStep`, each reached once), never exceeds `total_steps`,
and a fully successful run (all paths exist, all host operations succeed,
no abort) reaches `current_step = m * n`. -/
theorem step_counter_invariants (h : Host) (stop : Nat → Bool)
    (ss ts : List String) (saveFlag : Bool) :
    (processFiles h stop ss ts saveFlag).total = ts.length * ss.length ∧
    (processFiles h stop ss ts saveFlag).finalStep ≤
      (processFiles h stop ss ts saveFlag).total ∧
    (processFiles h stop ss ts saveFlag).prog =
      List.range' 1 (processFiles h stop ss ts saveFlag).finalStep ∧
    ((∀ p, h.pathExists p = true) → (∀ u, h.loadOk u = true) →
      (∀ p u, h.runOk p u = true) → (∀ p u, h.abortSignal p u = false) →
      (∀ n, stop n = false) →
      (processFiles h stop ss ts saveFlag).finalStep =
        ts.length * ss.length) := by
  by_cases htot : ts.length * ss.length = 0
  · unfold processFiles
    rw [if_pos htot]
    exact ⟨rfl, by simp, rfl, fun _ _ _ _ _ => by simpa using htot.symm⟩
  · obtain ⟨d, hd1, hd2, hd3⟩ :=
      runTargets_steps h stop ss saveFlag ts ⟨0, false, false⟩
    have hd1n : (runTargets h stop ss saveFlag ts
        ⟨0, false, false⟩).st.currentStep = d := by simpa using hd1
    have hd3n : (runTargets h stop ss saveFlag ts ⟨0, false, false⟩).prog =
        List.range' 1 d := by simpa using hd3
    unfold processFiles
    rw [if_neg htot]
    by_cases hex2 : (runTargets h stop ss saveFlag ts
        ⟨0, false, false⟩).exit = .abortReturn
    · rw [if_pos hex2]
      refine ⟨rfl, ?_, ?_, ?_⟩
      · show (runTargets h stop ss saveFlag ts
          ⟨0, false, false⟩).st.currentStep ≤ ts.length * ss.length
        rw [hd1n]
        exact hd2
      · show (runTargets h stop ss saveFlag ts ⟨0, false, false⟩).prog =
          List.range' 1 (runTargets h stop ss saveFlag ts
            ⟨0, false, false⟩).st.currentStep
        rw [hd3n, hd1n]
      · intro _ _ _ _ h5
        have hfin := runTargets_exit_no_stop h stop ss saveFlag ts
          ⟨0, false, false⟩ h5
        rw [hfin] at hex2
        simp at hex2
    · rw [if_neg hex2]
      refine ⟨rfl, ?_, ?_, ?_⟩
      · show (runTargets h stop ss saveFlag ts
          ⟨0, false, false⟩).st.currentStep ≤ ts.length * ss.length
        rw [hd1n]
        exact hd2
      · show (runTargets h stop ss saveFlag ts ⟨0, false, false⟩).prog =
          List.range' 1 (runTargets h stop ss saveFlag ts
            ⟨0, false, false⟩).st.currentStep
        rw [hd3n, hd1n]
      · intro h1 h2 h3 h4 h5
        show (runTargets h stop ss saveFlag ts
          ⟨0, false, false⟩).st.currentStep = ts.length * ss.length
        simpa using runTargets_allOk_noStop h stop ss saveFlag ts
          ⟨0, false, false⟩ h1 h2 h3 h4 h5 rfl

theorem step_counter_invariants_witness :
    (processFiles allOkHost (fun _ => false) ["A"] ["T1"] true).total = 1 ∧
    (processFiles allOkHost (fun _ => false) ["A"] ["T1"] true).finalStep ≤
      (processFiles allOkHost (fun _ => false) ["A"] ["T1"] true).total ∧
    (processFiles allOkHost (fun _ => false) ["A"] ["T1"] true).prog =
      List.range' 1 (processFiles allOkHost (fun _ => false) ["A"] ["T1"]
        true).finalStep ∧
    (processFiles allOkHost (fun _ => false) ["A"] ["T1"] true).finalStep = 1 :=
  ⟨(step_counter_invariants allOkHost (fun _ => false) ["A"] ["T1"] true).1,
   (step_counter_invariants allOkHost (fun _ => false) ["A"] ["T1"] true).2.1,
   (step_counter_invariants allOkHost (fun _ => false) ["A"] ["T1"] true).2.2.1,
   (step_counter_invariants allOkHost (fun _ => false) ["A"] ["T1"]
      true).2.2.2 (fun _ => rfl) (fun _ => rfl) (fun _ _ => rfl)
      (fun _ _ => rfl) (fun _ => rfl)⟩

/-- Claim C3: if the script list or the target list is empty, `processAll`
reports the empty-input warning and returns immediately, invoking no host
load, run or save operation and never entering the processing loop. -/
theorem emptyInput_no_host_ops (h : Host) (stop : Nat → Bool)
    (ss ts : List String) (saveFlag : Bool) (hempty : ss = [] ∨ ts = []) :
    (processAll h stop ss ts saveFlag).ops = [] ∧
    (processAll h stop ss ts saveFlag).prog = [] ∧
    (processAll h stop ss ts saveFlag).result = .emptyInput := by
  have hc : ss.length = 0 ∨ ts.length = 0 := by
    rcases hempty with he | he <;> simp [he]
  unfold processAll
  rw [if_pos hc]
  exact ⟨rfl, rfl, rfl⟩

theorem emptyInput_no_host_ops_witness :
    (processAll allOkHost (fun _ => false) [] ["T1"] true).ops = [] ∧
    (processAll allOkHost (fun _ => false) [] ["T1"] true).prog = [] ∧
    (processAll allOkHost (fun _ => false) [] ["T1"] true).result = .emptyInput :=
  emptyInput_no_host_ops allOkHost (fun _ => false) [] ["T1"] true (Or.inl rfl)

/-- Claim C4: with scripts `[A, B]`, targets `[T1, T2]`, `saveAfterEach`
set and every host operation succeeding, the engine invokes exactly
`load T1, run A T1, run B T1, save T1, load T2, run A T2, run B T2,
save T2` in that order, reports progress `1, 2, 3, 4`, and finalizes as
`Completed` with `currentStep = 4`. -/
theorem crossProduct_order_scenario :
    processFiles allOkHost (fun _ => false) ["A", "B"] ["T1", "T2"] true =
      ⟨4, 4, false,
        [.load "T1", .run "A" "T1", .run "B" "T1", .save "T1",
         .load "T2", .run "A" "T2", .run "B" "T2", .save "T2"],
        [1, 2, 3, 4], .completed⟩ := by
  decide

/-- Claim C6: a target that does not exist on disk, or whose load raises,
has the error recorded (`errors_occurred := true`), triggers zero script
runs and no save for that target (at most the failing `load` itself
appears in the trace), and the loop proceeds to the next target in
order. -/
theorem missing_target_skipped (h : Host) (stop : Nat → Bool)
    (ss : List String) (saveFlag : Bool) (t : String) (rest : List String)
    (st : RunState) (h1 : stop st.currentStep = false)
    (hfail : h.pathExists t = false ∨
      (h.pathExists t = true ∧ h.loadOk t = false)) :
    runTargets h stop ss saveFlag (t :: rest) st =
      OuterRes.push (if h.pathExists t then [.load t] else []) []
        (runTargets h stop ss saveFlag rest { st with errors := true }) := by
  rcases hfail with h2 | ⟨h2, h3⟩
  · rw [runTargets_cons_missing h stop ss saveFlag t rest st h1 h2]
    simp [OuterRes.push, h2]
  · rw [runTargets_cons_loadfail h stop ss saveFlag t rest st h1 h2 h3]
    simp [OuterRes.push, h2]

theorem missing_target_skipped_witness :
    runTargets noT1Host (fun _ => false) ["A"] true ["T1", "T2"]
        ⟨0, false, false⟩ =
      OuterRes.push (if noT1Host.pathExists "T1" then [.load "T1"] else []) []
        (runTargets noT1Host (fun _ => false) ["A"] true ["T2"]
          ⟨0, true, false⟩) :=
  missing_target_skipped noT1Host (fun _ => false) ["A"] true "T1" ["T2"]
    ⟨0, false, false⟩ rfl (Or.inl rfl)

/-- Claim C7: `updateProgress` computes
`percent = currentStep / totalSteps * 100` and
`estimatedRemaining = (totalSteps - currentStep) * (elapsed / currentStep)`,
with the division guarded so that `estimatedRemaining = 0` when
`currentStep = 0`. -/
theorem updateProgress_formula (c tot : Nat) (startTime now : ℚ)
    (_htot : 0 < tot) :
    (updateProgressCalc c tot startTime now).percent =
      (c : ℚ) / (tot : ℚ) * 100 ∧
    (0 < c → (updateProgressCalc c tot startTime now).estimatedRemaining =
      ((tot : ℚ) - (c : ℚ)) * ((now - startTime) / (c : ℚ))) ∧
    (c = 0 → (updateProgressCalc c tot startTime now).estimatedRemaining = 0) := by
  refine ⟨rfl, ?_, ?_⟩
  · intro hc
    simp [updateProgressCalc, hc]
  · intro hc
    subst hc
    simp [updateProgressCalc]

theorem updateProgress_formula_witness :
    (updateProgressCalc 2 4 10 20).percent = (2 : ℚ) / (4 : ℚ) * 100 ∧
    (0 < 2 → (updateProgressCalc 2 4 10 20).estimatedRemaining =
      ((4 : ℚ) - (2 : ℚ)) * ((20 - 10) / (2 : ℚ))) ∧
    (2 = 0 → (updateProgressCalc 2 4 10 20).estimatedRemaining = 0) :=
  updateProgress_formula 2 4 10 20 (by decide)

/-- Claim C9 is false on this code: with the single script path `"S"`
nonexistent (so that existence-filtering would empty the script list) and
an existing, loadable target `"T"`, the engine does not fail fast without
host operations — it enters the loop and invokes `load "T"`, finishing as
`CompletedWithErrors`. -/
theorem no_prefilter_counterexample :
    (processAll onlyTHost (fun _ => false) ["S"] ["T"] false).ops =
      [.load "T"] ∧
    (processAll onlyTHost (fun _ => false) ["S"] ["T"] false).ops ≠ [] ∧
    (processAll onlyTHost (fun _ => false) ["S"] ["T"] false).result =
      .completedWithErrors := by
  decide

/-- Claim C9 amended: `processAll` performs no existence pre-filtering of
the snapshotted paths — whenever both lists are non-empty it calls the
processing loop directly on the unfiltered lists, and nonexistent paths
are only detected per-step inside the loop. -/
theorem startRun_no_prefilter (h : Host) (stop : Nat → Bool)
    (ss ts : List String) (saveFlag : Bool) (hss : ss ≠ []) (hts : ts ≠ []) :
    processAll h stop ss ts saveFlag = processFiles h stop ss ts saveFlag := by
  have hc : ¬(ss.length = 0 ∨ ts.length = 0) := by
    simp [List.length_eq_zero, hss, hts]
  unfold processAll
  rw [if_neg hc]

theorem startRun_no_prefilter_witness :
    processAll onlyTHost (fun _ => false) ["S"] ["T"] false =
      processFiles onlyTHost (fun _ => false) ["S"] ["T"] false :=
  startRun_no_prefilter onlyTHost (fun _ => false) ["S"] ["T"] false
    (by simp) (by simp)

/-- Claim C8 is false on this code: with one script `"A"` whose run on
`"T1"` sets the host-side abort flag, and a second target `"T2"`, the
engine still invokes `load "T2"` and `run "A" "T2"` after observing the
flag — the host-side signal only breaks the current target's script loop,
it is not treated like the engine's own abort flag for the remainder of
the run (which even finalizes as `Completed`). -/
theorem hostAbort_counterexample :
    (processFiles sigAbortHost (fun _ => false) ["A"] ["T1", "T2"] false).ops =
      [.load "T1", .run "A" "T1", .load "T2", .run "A" "T2"] ∧
    .load "T2" ∈
      (processFiles sigAbortHost (fun _ => false) ["A"] ["T1", "T2"] false).ops ∧
    (processFiles sigAbortHost (fun _ => false) ["A"] ["T1", "T2"] false).result =
      .completed := by
  decide

/-- Claim C8 amended: when the host-side abort flag is observed true
immediately after a successful script run, the engine only breaks out of
the current target's script loop, without counting that step; it still
attempts `save(target)` when `saveAfterEach` is set, and then continues
with the remaining targets (the host flag stays latched in the state). -/
theorem hostAbort_breaks_inner_only (h : Host) (stop : Nat → Bool)
    (t s : String) (rest restT : List String) (st : RunState) (saveFlag : Bool)
    (hstop : ∀ n, stop n = false)
    (hpt : h.pathExists t = true) (hlt : h.loadOk t = true)
    (hps : h.pathExists s = true) (hrs : h.runOk s t = true)
    (hsig : h.abortSignal s t = true) :
    runTargets h stop (s :: rest) saveFlag (t :: restT) st =
      OuterRes.push
        (.load t :: .run s t :: (if saveFlag then [.save t] else [])) []
        (runTargets h stop (s :: rest) saveFlag restT
          (if saveFlag && !(h.saveOk t)
            then ⟨st.currentStep, true, true⟩
            else ⟨st.currentStep, st.errors, true⟩)) := by
  have hb4 : (st.gAbort || h.abortSignal s t) = true := by simp [hsig]
  have hinner := runScripts_cons_gbreak h stop t s rest st (hstop _) hps hrs hb4
  have h4 : (runScripts h stop t (s :: rest) st).exit ≠ .abortReturn := by
    rw [hinner]
    simp
  rw [runTargets_cons_go h stop (s :: rest) saveFlag t restT st (hstop _) hpt hlt h4]
  rw [hinner]
  simp only [OuterRes.push, hstop, Bool.not_false, Bool.and_true]
  rcases hsf : saveFlag && !(h.saveOk t) with _ | _ <;>
    rcases hs2 : saveFlag with _ | _ <;>
      simp_all [OuterRes.push]

theorem hostAbort_breaks_inner_only_witness :
    runTargets sigAbortHost (fun _ => false) ["A"] true ["T1", "T2"]
        ⟨0, false, false⟩ =
      OuterRes.push
        (.load "T1" :: .run "A" "T1" ::
          (if true then [.save "T1"] else [])) []
        (runTargets sigAbortHost (fun _ => false) ["A"] true ["T2"]
          (if true && !(sigAbortHost.saveOk "T1")
            then ⟨0, true, true⟩
            else ⟨0, false, true⟩)) :=
  hostAbort_breaks_inner_only sigAbortHost (fun _ => false) "T1" "A" [] ["T2"]
    ⟨0, false, false⟩ true (fun _ => rfl) rfl rfl rfl (by decide) (by decide)

/-- Claim C10: for every nonnegative number of seconds `s`, `secondsToHMS`
returns `(h, m, sec)` with `h * 3600 + m * 60 + sec = ⌊s⌋`, `0 ≤ m < 60`
and `0 ≤ sec < 60`. -/
theorem secondsToHMS_decomposition (s : ℚ) (hs : 0 ≤ s) :
    (secondsToHMS s).1 * 3600 + (secondsToHMS s).2.1 * 60 +
        (secondsToHMS s).2.2 = ⌊s⌋ ∧
    0 ≤ (secondsToHMS s).2.1 ∧ (secondsToHMS s).2.1 < 60 ∧
    0 ≤ (secondsToHMS s).2.2 ∧ (secondsToHMS s).2.2 < 60 := by
  have hn : pyInt s = ⌊s⌋ := by simp [pyInt, hs]
  simp only [secondsToHMS, hn]
  rw [Int.fdiv_eq_ediv _ (by norm_num), Int.fmod_eq_emod _ (by norm_num),
    Int.fdiv_eq_ediv _ (by norm_num), Int.fmod_eq_emod _ (by norm_num)]
  omega

theorem secondsToHMS_decomposition_witness :
    (secondsToHMS (7325 / 2 : ℚ)).1 * 3600 +
        (secondsToHMS (7325 / 2 : ℚ)).2.1 * 60 +
        (secondsToHMS (7325 / 2 : ℚ)).2.2 = ⌊(7325 / 2 : ℚ)⌋ ∧
    0 ≤ (secondsToHMS (7325 / 2 : ℚ)).2.1 ∧
    (secondsToHMS (7325 / 2 : ℚ)).2.1 < 60 ∧
    0 ≤ (secondsToHMS (7325 / 2 : ℚ)).2.2 ∧
    (secondsToHMS (7325 / 2 : ℚ)).2.2 < 60 :=
  secondsToHMS_decomposition (7325 / 2 : ℚ) (by norm_num)

end BatchTool
